import Mathlib

/-!
Verification of the text-chunking and retrieval-context assembly pipeline of
the Alinta Energy assistant repository.  The definitions below are shallow
embeddings of the Python sources:

* `chunk_text` and its sliding-window loop embed
  `data_pipeline/notebooks/03_create_chunks.py` (`chunk_text`).
* `RetrievalResult.get_context_string` / `RetrievalResult.get_sources` embed
  `app/backend/rag/retrieval.py`.
* `extract_answer` embeds the response-content extraction of
  `AlintaGenerator.generate` in `app/backend/rag/generation.py`.
* `answer_question` embeds `RAGPipeline.answer_question`
  (`app/backend/rag/generation.py`); the external retriever and generator
  clients appear as function parameters whose outcome is an `Except`.
* `chatEndpoint` embeds the `POST /api/chat` handler of
  `app/backend/api/routes.py`.

The Python loop in `chunk_text` may fail to terminate (when
`overlap >= chunk_size` the window start never advances), so the loop is
embedded with explicit fuel and an `Option` result: `none` means the loop has
not finished within the given fuel, and divergence is expressed as returning
`none` for every fuel.
-/

namespace Alinta

/-! ### Chunker: `data_pipeline/notebooks/03_create_chunks.py` -/

/-- `CHUNK_SIZE = 400  # words per chunk` -/
def CHUNK_SIZE : Nat := 400

/-- `OVERLAP_SIZE = 50  # words overlap between chunks` -/
def OVERLAP_SIZE : Nat := 50

/-- `MIN_CHUNK_SIZE = 50  # minimum words to keep a chunk` -/
def MIN_CHUNK_SIZE : Nat := 50

/-- Python `text.split()`: split on runs of whitespace, dropping empty
pieces.  `acc` is the reversed current word. -/
def splitWordsAux : List Char → List Char → List String
  | [], [] => []
  | [], acc => [String.mk acc.reverse]
  | c :: cs, acc =>
    if c.isWhitespace then
      match acc with
      | [] => splitWordsAux cs []
      | _ => String.mk acc.reverse :: splitWordsAux cs []
    else
      splitWordsAux cs (c :: acc)

/-- `words = text.split()` -/
def pyWords (text : String) : List String :=
  splitWordsAux text.toList []

/-- `' '.join(chunk_words)` -/
def joinWords (ws : List String) : String :=
  String.intercalate " " ws

/-- `words[start_idx:end_idx]` with `end_idx = start_idx + chunk_size`,
for a non-negative in-range `start_idx`. -/
def windowAt (words : List String) (chunk_size start : Nat) : List String :=
  (words.drop start).take chunk_size

/-- The `while start_idx < len(words)` loop of `chunk_text`, with explicit
fuel.  One fuel unit is one loop iteration; `none` means the fuel was
exhausted before the loop finished.  `chunks` is the accumulator list the
Python code appends to.  The Python update `start_idx += (chunk_size -
overlap)` is `start + (chunk_size - overlap)` here; for `overlap ≥
chunk_size` the Python increment is `≤ 0` and the loop never reaches its
exit conditions (proved below), which the truncated Nat subtraction models:
both never return. -/
def chunkLoop (words : List String) (chunk_size overlap min_size : Nat) :
    Nat → Nat → List String → Option (List String)
  | 0, _, _ => none
  | fuel + 1, start, chunks =>
    if start < words.length then
      let chunk_words := windowAt words chunk_size start
      let chunks' :=
        if min_size ≤ chunk_words.length then chunks ++ [joinWords chunk_words] else chunks
      if words.length ≤ start + chunk_size then some chunks'
      else chunkLoop words chunk_size overlap min_size fuel (start + (chunk_size - overlap)) chunks'
    else some chunks

/-- `chunk_text(text, chunk_size, overlap)` from
`03_create_chunks.py`, generalized over the module-level constant
`MIN_CHUNK_SIZE` (parameter `min_size`).  Fuel `words.length + 1` is enough
for every terminating run (the start index strictly increases and the loop
stops at `len(words)`); `none` models the non-terminating runs. -/
def chunk_textP (text : String) (chunk_size overlap min_size : Nat) :
    Option (List String) :=
  if text = "" ∨ text.toList.all Char.isWhitespace then some []
  else
    let words := pyWords text
    if words.length ≤ chunk_size then
      some (if min_size ≤ words.length then [text] else [])
    else
      chunkLoop words chunk_size overlap min_size (words.length + 1) 0 []

/-- `chunk_text` with the module-level `MIN_CHUNK_SIZE`. -/
def chunk_text (text : String) (chunk_size overlap : Nat) : Option (List String) :=
  chunk_textP text chunk_size overlap MIN_CHUNK_SIZE

/-! ### Retrieval result assembly: `app/backend/rag/retrieval.py` -/

/-- A retrieved chunk record: a Python dict with the keys written by
`AlintaRetriever.retrieve`; `none` models a missing key, so `Option.getD`
is Python's `dict.get(key, default)`. -/
structure Chunk where
  chunk_id : Option String
  content : Option String
  source : Option String
  title : Option String
  sectionName : Option String
deriving DecidableEq

/-- `chunk.get("title", "Unknown")` -/
def chunkTitle (c : Chunk) : String := c.title.getD "Unknown"

/-- `chunk.get("content", "")` -/
def chunkContent (c : Chunk) : String := c.content.getD ""

/-- `chunk.get("source", "")` -/
def chunkSource (c : Chunk) : String := c.source.getD ""

/-- `RetrievalResult`: `chunks`, `query`, and `num_results = len(chunks)`
computed by `__init__`. -/
structure RetrievalResult where
  chunks : List Chunk
  query : String
  num_results : Nat
deriving DecidableEq

/-- `RetrievalResult.__init__`. -/
def mkRetrievalResult (chunks : List Chunk) (query : String) : RetrievalResult :=
  ⟨chunks, query, chunks.length⟩

/-- One rendered context block:
`f"[Source {i}: {title}]\n{content}\nURL: {source}"`. -/
def blockFor (i : Nat) (c : Chunk) : String :=
  "[Source " ++ toString i ++ ": " ++ chunkTitle c ++ "]\n" ++
    chunkContent c ++ "\nURL: " ++ chunkSource c

/-- The `for i, chunk in enumerate(self.chunks, 1)` loop building
`context_parts`. -/
def contextPartsFrom (i : Nat) : List Chunk → List String
  | [] => []
  | c :: rest => blockFor i c :: contextPartsFrom (i + 1) rest

/-- `RetrievalResult.get_context_string`. -/
def get_context_string (chunks : List Chunk) : String :=
  if chunks = [] then "No relevant information found."
  else String.intercalate "\n\n---\n\n" (contextPartsFrom 1 chunks)

/-- A `{title, url}` source citation. -/
structure Src where
  title : String
  url : String
deriving DecidableEq

/-- The loop of `RetrievalResult.get_sources`, with the `seen_urls` set as a
list; the result list is emitted in iteration order, as Python's `append`
does. -/
def get_sourcesGo : List Chunk → List String → List Src
  | [], _ => []
  | c :: rest, seen =>
    let url := chunkSource c
    if url ≠ "" ∧ url ∉ seen then
      ⟨chunkTitle c, url⟩ :: get_sourcesGo rest (url :: seen)
    else
      get_sourcesGo rest seen

/-- `RetrievalResult.get_sources`. -/
def get_sources (chunks : List Chunk) : List Src :=
  get_sourcesGo chunks []

/-- Specification-side rendering of `sources()` (spec §4.2): iterate records
in order, keep the first occurrence per URL, skip records with empty or
missing URL. -/
def specSources : List Chunk → List Src
  | [] => []
  | c :: rest =>
    if chunkSource c = "" then specSources rest
    else
      ⟨chunkTitle c, chunkSource c⟩ ::
        specSources (rest.filter (fun c2 => chunkSource c2 ≠ chunkSource c))
termination_by chunks => chunks.length
decreasing_by
  · simp only [List.length_cons]
    exact Nat.lt_succ_of_le (Nat.le_refl _)
  · simp only [List.length_cons]
    exact Nat.lt_succ_of_le (List.length_filter_le _ _)

/-! ### Generator response-content extraction:
`AlintaGenerator.generate` in `app/backend/rag/generation.py` -/

/-- One element of a structured response content list.  `dict t x` models a
Python dict whose `"type"` key is `t` and `"text"` key is `x` (`none` for a
missing key); `other` models a non-dict element, which every `isinstance`
check skips. -/
inductive PyBlock where
  | dict (type? : Option String) (text? : Option String)
  | other
deriving DecidableEq

/-- `response.choices[0].message.content`: either a plain string or a
structured list of blocks. -/
inductive PyContent where
  | str (s : String)
  | list (blocks : List PyBlock)
deriving DecidableEq

/-- The first extraction loop: `answer += block.get("text", "")` for every
dict block with `block.get("type") == "text"`. -/
def mainLoop : List PyBlock → String
  | [] => ""
  | b :: rest =>
    (match b with
     | .dict t x => if t = some "text" then x.getD "" else ""
     | .other => "") ++ mainLoop rest

/-- The fallback comprehension:
`str(block.get("text", ""))` for every dict block having a `"text"` key. -/
def fallbackText : PyBlock → Option String
  | .dict _ (some x) => some x
  | _ => none

/-- The answer-extraction logic of `AlintaGenerator.generate`: a plain
string is `str(content)`; a list runs `mainLoop`, then, if that produced
the empty string, the space-joined fallback. -/
def extract_answer : PyContent → String
  | .str s => s
  | .list blocks =>
    let answer := mainLoop blocks
    if answer = "" then String.intercalate " " (blocks.filterMap fallbackText)
    else answer

/-- Specification-side statement of the extraction for list content
(spec §4.4): concatenate, in order, exactly the `text` of the blocks typed
`"text"`. -/
def specMainConcat (blocks : List PyBlock) : String :=
  List.foldr (· ++ ·) "" (blocks.filterMap (fun b =>
    match b with
    | .dict t x => if t = some "text" then some (x.getD "") else none
    | .other => none))

/-! ### Pipeline and façade: `RAGPipeline.answer_question`
(`generation.py`) and the `/api/chat` handler (`api/routes.py`) -/

/-- One conversation message `{role, content}`. -/
structure ChatMsg where
  role : String
  content : String
deriving DecidableEq

/-- A metadata value (Python dict values in the pipeline metadata). -/
inductive MVal where
  | nat (n : Nat)
  | str (s : String)
  | null
deriving DecidableEq

/-- `GenerationResult`: answer plus metadata pairs. -/
structure GenerationResult where
  answer : String
  metadata : List (String × MVal)
deriving DecidableEq

/-- The pipeline response dict `{"answer", "sources", "metadata"}`. -/
structure PipelineResponse where
  answer : String
  sources : List Src
  metadata : List (String × MVal)
deriving DecidableEq

/-- The `ERROR_MESSAGES` dict of `app/backend/rag/prompts.py`. -/
def ERROR_MESSAGES (key : String) : String :=
  if key = "retrieval_failed" then
    "I'm having trouble accessing information right now. Please try again in a moment or contact Alinta Energy directly at 13 13 58."
  else if key = "generation_failed" then
    "I apologize, but I encountered an error generating a response. Please try rephrasing your question or contact Alinta Energy at 13 13 58."
  else if key = "no_context" then
    "I couldn't find relevant information to answer your question. For specific details, please contact Alinta Energy at 13 13 58 or visit alintaenergy.com.au."
  else if key = "rate_limit" then
    "I'm currently experiencing high demand. Please wait a moment and try again."
  else if key = "invalid_request" then
    "I didn't quite understand that. Could you please rephrase your question?"
  else ""

/-- `RAGPipeline.answer_question(query, conversation_history, top_k)`.
The external clients appear as parameters: `retrieve` is
`self.retriever.retrieve` and `gen` is `self.generator.generate`; a raised
exception is the `Except.error` case and propagates (the `try`/`except`
only logs and re-raises). -/
def answer_question
    (retrieve : String → Option Nat → Except String RetrievalResult)
    (gen : String → String → Option (List ChatMsg) → Except String GenerationResult)
    (query : String) (conversation_history : Option (List ChatMsg))
    (top_k : Option Nat) : Except String PipelineResponse :=
  match retrieve query top_k with
  | .error e => .error e
  | .ok rr =>
    if rr.chunks = [] then
      .ok ⟨ERROR_MESSAGES "no_context", [], [("retrieved_chunks", MVal.nat 0)]⟩
    else
      match gen query (get_context_string rr.chunks) conversation_history with
      | .error e => .error e
      | .ok g =>
        .ok ⟨g.answer, get_sources rr.chunks,
          ("retrieved_chunks", MVal.nat rr.num_results) :: g.metadata⟩

/-- Python `question.strip()`: the string without leading and trailing
whitespace (explicit character-list implementation, since it must be
executable in proofs). -/
def pyStrip (s : String) : String :=
  String.mk (((s.toList.dropWhile Char.isWhitespace).reverse.dropWhile
    Char.isWhitespace).reverse)

/-- Outcome of the `/api/chat` handler: either a `ChatResponse` or an
`HTTPException` with a status code and detail string. -/
inductive ChatOutcome where
  | ok (answer : String) (sources : List Src) (metadata : List (String × MVal))
  | err (status : Nat) (detail : String)
deriving DecidableEq

/-- The `chat` handler of `app/backend/api/routes.py`.  `ready` is
`rag_pipeline is not None`; `retrieve`/`gen` are the singleton clients the
pipeline was built with; the remaining parameters are the `ChatRequest`
fields.  Any exception escaping `answer_question` is caught by the blanket
`except` and turned into a 500 with `ERROR_MESSAGES["generation_failed"]`. -/
def chatEndpoint (ready : Bool)
    (retrieve : String → Option Nat → Except String RetrievalResult)
    (gen : String → String → Option (List ChatMsg) → Except String GenerationResult)
    (question : String) (conversation_history : List ChatMsg)
    (top_k : Option Nat) : ChatOutcome :=
  if !ready then
    .err 503 "Service is initializing. Please try again in a moment."
  else
    let q := pyStrip question
    if q = "" then .err 400 "Question cannot be empty"
    else
      let history : Option (List ChatMsg) :=
        if conversation_history = [] then none else some conversation_history
      match answer_question retrieve gen q history top_k with
      | .error _ => .err 500 (ERROR_MESSAGES "generation_failed")
      | .ok r => .ok r.answer r.sources r.metadata

/-! ### Concrete fixtures used by witnesses and counterexamples -/

/-- A retriever client whose call raises (transport failure). -/
def failingRetrieve (msg : String) :
    String → Option Nat → Except String RetrievalResult :=
  fun _ _ => Except.error msg

/-- A retriever client returning a fixed result. -/
def okRetrieve (rr : RetrievalResult) :
    String → Option Nat → Except String RetrievalResult :=
  fun _ _ => Except.ok rr

/-- A generator client with a fixed outcome. -/
def stubGen (g : Except String GenerationResult) :
    String → String → Option (List ChatMsg) → Except String GenerationResult :=
  fun _ _ _ => g

/-- A retrieved record with a URL and a title, all other keys missing. -/
def recordUT (u t : String) : Chunk :=
  ⟨none, none, some u, some t, none⟩

/-- A retrieved record with content, URL and title. -/
def recordFull : Chunk :=
  ⟨none, some "body", some "http://x", some "T", none⟩

/-! ## Lemmas about the chunker -/

/-- Splitting a whitespace-only character list yields no words. -/
lemma splitWordsAux_all_ws (l : List Char) (h : ∀ c ∈ l, c.isWhitespace) :
    splitWordsAux l [] = [] := by
  induction l with
  | nil => rfl
  | cons c cs ih =>
    have hc : c.isWhitespace := h c (by simp)
    simp only [splitWordsAux, hc, if_pos]
    exact ih (fun c' hc' => h c' (by simp [hc']))

/-- The early-return guard of `chunk_text` fires exactly on texts with no
words. -/
lemma pyWords_eq_nil_of_blank (text : String)
    (h : text = "" ∨ text.toList.all Char.isWhitespace) : pyWords text = [] := by
  rcases h with h | h
  · subst h; rfl
  · exact splitWordsAux_all_ws _ (by simpa [List.all_eq_true] using h)

/-- Length of a window slice. -/
lemma windowAt_length (words : List String) (cs start : Nat) :
    (windowAt words cs start).length = min cs (words.length - start) := by
  simp [windowAt]

/-- A window fully inside the word list has exactly `chunk_size` words. -/
lemma windowAt_length_full (words : List String) (cs start : Nat)
    (h : start + cs ≤ words.length) :
    (windowAt words cs start).length = cs := by
  rw [windowAt_length]; omega

/-- With `overlap ≥ chunk_size` the start index never advances, so the
sliding loop consumes any amount of fuel without returning. -/
lemma chunkLoop_no_advance (words : List String) (cs ov ms start : Nat)
    (hov : cs ≤ ov) (hlt : start + cs < words.length) :
    ∀ fuel acc, chunkLoop words cs ov ms fuel start acc = none := by
  intro fuel
  induction fuel with
  | zero => intro acc; rfl
  | succ n ih =>
    intro acc
    have h1 : start < words.length := by omega
    have h2 : ¬ words.length ≤ start + cs := by omega
    have h3 : cs - ov = 0 := by omega
    simp only [chunkLoop, if_pos h1, if_neg h2, h3, Nat.add_zero]
    exact ih _

/-- Claim C1 (code_bug evidence).  The spec requires `overlap ≥ chunk_size`
to be rejected with a raised configuration error before any chunking
attempt, but `chunk_text` has no such guard: on any text whose word count
exceeds `chunk_size`, the sliding loop's start index never advances
(`start_idx += chunk_size - overlap ≤ 0`), so the call neither raises nor
returns — the loop diverges.  Formally: the fuelled loop returns `none` for
every fuel, and `chunk_textP` (which runs the loop) returns `none`, the
embedding's representation of non-termination. -/
theorem chunk_text_overlap_ge_window_diverges (text : String) (cs ov ms : Nat)
    (hov : cs ≤ ov) (hlen : cs < (pyWords text).length) :
    (∀ fuel acc, chunkLoop (pyWords text) cs ov ms fuel 0 acc = none) ∧
    chunk_textP text cs ov ms = none := by
  have hloop := chunkLoop_no_advance (pyWords text) cs ov ms 0 hov (by omega)
  refine ⟨hloop, ?_⟩
  have hne : ¬ (text = "" ∨ text.toList.all Char.isWhitespace) := by
    intro h
    rw [pyWords_eq_nil_of_blank text h] at hlen
    simp at hlen
  unfold chunk_textP
  rw [if_neg hne, if_neg (by omega)]
  exact hloop _ _

/-- Witness for `chunk_text_overlap_ge_window_diverges` at the concrete
failing input `chunk_text("a b c", chunk_size=2, overlap=2)`. -/
theorem chunk_text_overlap_ge_window_diverges_witness :
    2 ≤ 2 ∧ 2 < (pyWords "a b c").length ∧
    chunk_textP "a b c" 2 2 1 = none :=
  ⟨by decide, by decide,
    (chunk_text_overlap_ge_window_diverges "a b c" 2 2 1 (by decide) (by decide)).2⟩

/-- Claim C9.  A text whose word count is at most the window and at least
the (positive) minimum is returned as the single chunk `[text]`, verbatim;
a text whose word count is below the minimum (with `min_size ≤ chunk_size`)
yields no chunks. -/
theorem chunk_text_small_input (text : String) (cs ov ms : Nat)
    (hms : 1 ≤ ms) :
    (ms ≤ (pyWords text).length → (pyWords text).length ≤ cs →
      chunk_textP text cs ov ms = some [text]) ∧
    ((pyWords text).length < ms → ms ≤ cs →
      chunk_textP text cs ov ms = some []) := by
  constructor
  · intro h1 h2
    have hne : ¬ (text = "" ∨ text.toList.all Char.isWhitespace) := by
      intro h
      rw [pyWords_eq_nil_of_blank text h] at h1
      simp at h1
      omega
    unfold chunk_textP
    rw [if_neg hne, if_pos h2, if_pos h1]
  · intro h1 h2
    by_cases h : text = "" ∨ text.toList.all Char.isWhitespace
    · unfold chunk_textP
      rw [if_pos h]
    · unfold chunk_textP
      rw [if_neg h, if_pos (by omega), if_neg (by omega)]

/-- Witness for `chunk_text_small_input`: a two-word text with window 3 and
minimum 1 comes back as the single original chunk. -/
theorem chunk_text_small_input_witness :
    1 ≤ 1 ∧ 1 ≤ (pyWords "a b").length ∧ (pyWords "a b").length ≤ 3 ∧
    chunk_textP "a b" 3 0 1 = some ["a b"] :=
  ⟨by decide, by decide, by decide,
    (chunk_text_small_input "a b" 3 0 1 (by decide)).1 (by decide) (by decide)⟩

/-- Claim C10.  The single-chunk branch returns the original string with
its whitespace intact (a double space survives), while the sliding branch
re-joins window words with single spaces: two different texts whose word
sequences agree produce identical chunk lists, so the original character
sequence is not reconstructible from the chunks, and a run of whitespace
or a newline is normalized to one space. -/
theorem chunk_text_whitespace_normalization :
    chunk_textP "a  b" 2 0 1 = some ["a  b"] ∧
    "a b c" ≠ "a  b\nc" ∧
    chunk_textP "a b c" 2 0 1 = chunk_textP "a  b\nc" 2 0 1 ∧
    chunk_textP "a b c" 2 0 1 = some ["a b", "c"] :=
  ⟨by decide, by decide, by decide, by decide⟩

/-! ## Lemmas about source deduplication -/

/-- Splitting the freshly-seen URL out of the seen-set membership test. -/
lemma filter_notMem_cons (url : String) (seen : List String) (rest : List Chunk) :
    rest.filter (fun c2 => chunkSource c2 ∉ url :: seen)
      = (rest.filter (fun c2 => chunkSource c2 ∉ seen)).filter
          (fun c2 => chunkSource c2 ≠ url) := by
  rw [List.filter_filter]
  apply List.filter_congr
  intro a _
  simp [List.mem_cons, not_or, Bool.decide_and]

/-- The seen-set loop of `get_sources` computes the first-occurrence
deduplication of the records whose URL is not already seen. -/
lemma get_sourcesGo_eq (chunks : List Chunk) : ∀ seen : List String,
    get_sourcesGo chunks seen
      = specSources (chunks.filter (fun c => chunkSource c ∉ seen)) := by
  induction chunks with
  | nil => intro seen; simp [get_sourcesGo, specSources]
  | cons c rest ih =>
    intro seen
    by_cases hmem : chunkSource c ∈ seen
    · have hcond : ¬ (chunkSource c ≠ "" ∧ chunkSource c ∉ seen) := by tauto
      rw [get_sourcesGo, if_neg hcond, List.filter_cons, if_neg (by simpa using hmem)]
      exact ih seen
    · by_cases hurl : chunkSource c = ""
      · have hcond : ¬ (chunkSource c ≠ "" ∧ chunkSource c ∉ seen) := by tauto
        rw [get_sourcesGo, if_neg hcond, List.filter_cons, if_pos (by simpa using hmem)]
        rw [specSources, if_pos hurl]
        exact ih seen
      · have hcond : chunkSource c ≠ "" ∧ chunkSource c ∉ seen := ⟨hurl, hmem⟩
        rw [get_sourcesGo, if_pos hcond, List.filter_cons, if_pos (by simpa using hmem)]
        rw [specSources, if_neg hurl, ih (chunkSource c :: seen), filter_notMem_cons]

/-- Every emitted source URL is the URL of some input record. -/
lemma mem_specSources_url :
    ∀ (n : Nat) (chunks : List Chunk), chunks.length ≤ n →
      ∀ e ∈ specSources chunks, ∃ c ∈ chunks, e.url = chunkSource c := by
  intro n
  induction n with
  | zero =>
    intro chunks hlen e he
    have h0 : chunks = [] := List.length_eq_zero.mp (by omega)
    subst h0
    simp [specSources] at he
  | succ n ih =>
    intro chunks hlen e he
    match chunks with
    | [] => simp [specSources] at he
    | c :: rest =>
      by_cases hurl : chunkSource c = ""
      · rw [specSources, if_pos hurl] at he
        obtain ⟨c2, hc2, hu⟩ := ih rest (by simpa using hlen) e he
        exact ⟨c2, by simp [hc2], hu⟩
      · rw [specSources, if_neg hurl] at he
        rcases List.mem_cons.mp he with he | he
        · exact ⟨c, by simp, by rw [he]⟩
        · obtain ⟨c2, hc2, hu⟩ :=
            ih (rest.filter (fun c2 => chunkSource c2 ≠ chunkSource c))
              (by
                have := List.length_filter_le
                  (fun c2 => decide (chunkSource c2 ≠ chunkSource c)) rest
                simp only [List.length_cons] at hlen
                omega)
              e he
          exact ⟨c2, by simp [List.mem_filter.mp hc2], hu⟩

/-- The URLs of the deduplicated source list are pairwise distinct. -/
lemma specSources_urls_pairwise :
    ∀ (n : Nat) (chunks : List Chunk), chunks.length ≤ n →
      ((specSources chunks).map (fun e => e.url)).Pairwise (· ≠ ·) := by
  intro n
  induction n with
  | zero =>
    intro chunks hlen
    have h0 : chunks = [] := List.length_eq_zero.mp (by omega)
    subst h0
    simp [specSources]
  | succ n ih =>
    intro chunks hlen
    match chunks with
    | [] => simp [specSources]
    | c :: rest =>
      by_cases hurl : chunkSource c = ""
      · rw [specSources, if_pos hurl]
        exact ih rest (by simpa using hlen)
      · rw [specSources, if_neg hurl]
        have hlen2 :
            (rest.filter (fun c2 => chunkSource c2 ≠ chunkSource c)).length ≤ n := by
          have := List.length_filter_le
            (fun c2 => decide (chunkSource c2 ≠ chunkSource c)) rest
          simp only [List.length_cons] at hlen
          omega
        simp only [List.map_cons, List.pairwise_cons]
        refine ⟨?_, ih _ hlen2⟩
        intro u hu
        obtain ⟨e, he, heu⟩ := List.mem_map.mp hu
        obtain ⟨c2, hc2, hu2⟩ := mem_specSources_url n _ hlen2 e he
        have : chunkSource c2 ≠ chunkSource c := by
          simpa using (List.mem_filter.mp hc2).2
        intro hcontra
        rw [← heu, hu2] at hcontra
        exact this hcontra.symm

/-- Claim C5.  `get_sources` keeps, in input order, only the first record
per URL, skipping records with an empty or missing URL (equality with the
specification-side `specSources`); consequently the emitted URLs are
pairwise distinct, and for input URLs `[a, b, a, c]` exactly the three
entries `[a, b, c]` come back in order. -/
theorem get_sources_stable_dedup :
    (∀ chunks : List Chunk, get_sources chunks = specSources chunks)
    ∧ (∀ chunks : List Chunk,
        ((get_sources chunks).map (fun e => e.url)).Pairwise (· ≠ ·))
    ∧ get_sources
        [recordUT "a" "ta", recordUT "b" "tb", recordUT "a" "ta2", recordUT "c" "tc"]
        = [⟨"ta", "a"⟩, ⟨"tb", "b"⟩, ⟨"tc", "c"⟩] := by
  have heq : ∀ chunks : List Chunk, get_sources chunks = specSources chunks := by
    intro chunks
    rw [get_sources, get_sourcesGo_eq chunks []]
    congr 1
    apply List.filter_eq_self.mpr
    intro a _
    simp
  refine ⟨heq, ?_, by decide⟩
  intro chunks
  rw [heq]
  exact specSources_urls_pairwise chunks.length chunks (Nat.le_refl _)

/-! ## Context-string rendering -/

/-- The enumeration loop building `context_parts` renders, position by
position, the block of the record at that position, with indices counted
from `i`. -/
lemma contextPartsFrom_eq_ofFn (chunks : List Chunk) : ∀ i,
    contextPartsFrom i chunks
      = List.ofFn (fun j : Fin chunks.length => blockFor (i + j.1) (chunks.get j)) := by
  induction chunks with
  | nil => intro i; simp [contextPartsFrom]
  | cons c rest ih =>
    intro i
    simp only [contextPartsFrom, List.ofFn_succ, Fin.val_zero, Nat.add_zero,
      Fin.val_succ, List.get_cons_zero, List.length_cons]
    rw [ih (i + 1)]
    have h2 : (fun j : Fin rest.length => blockFor (i + 1 + j.1) (rest.get j))
        = (fun j : Fin rest.length => blockFor (i + (j.1 + 1)) ((c :: rest).get j.succ)) := by
      funext j
      have harith : i + 1 + j.1 = i + (j.1 + 1) := by omega
      rw [harith]
      rfl
    rw [h2]

/-- Claim C7.  `get_context_string` returns the fixed no-information
sentinel on an empty record list, and otherwise the records rendered in
input order as blocks `[Source i: title]` + newline + text + newline +
`URL: ` + url with 1-based `i`, joined by the fixed separator
`"\n\n---\n\n"`. -/
theorem get_context_string_rendering :
    get_context_string ([] : List Chunk) = "No relevant information found."
    ∧ (∀ chunks : List Chunk, chunks ≠ [] →
        get_context_string chunks
          = String.intercalate "\n\n---\n\n"
              (List.ofFn (fun j : Fin chunks.length =>
                blockFor (j.1 + 1) (chunks.get j)))) := by
  refine ⟨rfl, ?_⟩
  intro chunks hne
  have h : (fun j : Fin chunks.length => blockFor (1 + j.1) (chunks.get j))
      = (fun j : Fin chunks.length => blockFor (j.1 + 1) (chunks.get j)) := by
    funext j
    congr 1
    omega
  rw [get_context_string, if_neg hne, contextPartsFrom_eq_ofFn chunks 1, h]

/-- Witness for `get_context_string_rendering` on a one-record list. -/
theorem get_context_string_rendering_witness :
    [recordFull] ≠ ([] : List Chunk)
    ∧ get_context_string [recordFull]
        = String.intercalate "\n\n---\n\n"
            (List.ofFn (fun j : Fin [recordFull].length =>
              blockFor (j.1 + 1) ([recordFull].get j))) :=
  ⟨by decide, get_context_string_rendering.2 [recordFull] (by decide)⟩

/-! ## Generator content extraction -/

/-- The imperative `answer += ...` loop over the blocks equals the ordered
concatenation of the `text` of the `"text"`-typed blocks. -/
lemma mainLoop_eq_specMainConcat (bs : List PyBlock) :
    mainLoop bs = specMainConcat bs := by
  induction bs with
  | nil => rfl
  | cons b rest ih =>
    cases b with
    | dict t x =>
      by_cases ht : t = some "text"
      · simp [mainLoop, specMainConcat, ht, List.filterMap_cons, ih]
      · simp [mainLoop, specMainConcat, ht, List.filterMap_cons, ih]
    | other => simp [mainLoop, specMainConcat, List.filterMap_cons, ih]

/-- Counterexample to claim C8 as stated: on the list content
`[{type: "reasoning", text: "hidden"}]` no block is typed `"text"`, so the
claim predicts the empty answer, but the fallback branch of `generate`
returns `"hidden"`, the text of a non-`"text"`-typed block. -/
theorem extract_answer_fallback_counterexample :
    extract_answer (.list [.dict (some "reasoning") (some "hidden")]) = "hidden"
    ∧ specMainConcat [.dict (some "reasoning") (some "hidden")] = ""
    ∧ ("hidden" : String) ≠ "" := by
  refine ⟨rfl, rfl, by decide⟩

/-- Claim C8, amended.  `generate` takes a plain-string content as-is; for
list content it concatenates, in order, the text of the `"text"`-typed
blocks — except that when that concatenation is empty it falls back to the
space-joined `text` fields of all dict blocks possessing a `text` key,
regardless of their type. -/
theorem extract_answer_dual_shape :
    (∀ s, extract_answer (.str s) = s)
    ∧ (∀ bs, specMainConcat bs ≠ "" →
        extract_answer (.list bs) = specMainConcat bs)
    ∧ (∀ bs, specMainConcat bs = "" →
        extract_answer (.list bs)
          = String.intercalate " " (bs.filterMap fallbackText)) := by
  refine ⟨fun s => rfl, ?_, ?_⟩ <;>
    intro bs h <;>
    simp [extract_answer, mainLoop_eq_specMainConcat, h]

/-- Witness for `extract_answer_dual_shape` on a two-block list with one
`"text"`-typed block. -/
theorem extract_answer_dual_shape_witness :
    specMainConcat [.dict (some "text") (some "hi"), .other] ≠ ""
    ∧ extract_answer (.list [.dict (some "text") (some "hi"), .other])
        = specMainConcat [.dict (some "text") (some "hi"), .other] :=
  ⟨by decide, extract_answer_dual_shape.2.1 _ (by decide)⟩

/-! ## Pipeline and façade behavior -/

/-- Claim C6.  When the retriever returns zero records, `answer_question`
short-circuits to the fixed no-relevant-information answer with an empty
source list and metadata `{retrieved_chunks: 0}`; the result is the same
for every generator `gen`, so the generator is never consulted. -/
theorem answer_question_no_context_short_circuit
    (retrieve : String → Option Nat → Except String RetrievalResult)
    (gen : String → String → Option (List ChatMsg) → Except String GenerationResult)
    (query : String) (history : Option (List ChatMsg)) (top_k : Option Nat)
    (rr : RetrievalResult)
    (hret : retrieve query top_k = .ok rr) (hempty : rr.chunks = []) :
    answer_question retrieve gen query history top_k
      = .ok ⟨ERROR_MESSAGES "no_context", [], [("retrieved_chunks", MVal.nat 0)]⟩ := by
  unfold answer_question
  rw [hret]
  simp [hempty]

/-- Witness for `answer_question_no_context_short_circuit`: a retriever
returning zero records, a generator that would raise if called. -/
theorem answer_question_no_context_short_circuit_witness :
    okRetrieve (mkRetrievalResult [] "q") "q" none = .ok (mkRetrievalResult [] "q")
    ∧ (mkRetrievalResult [] "q").chunks = []
    ∧ answer_question (okRetrieve (mkRetrievalResult [] "q"))
        (stubGen (.error "generator must not be called")) "q" none none
      = .ok ⟨ERROR_MESSAGES "no_context", [], [("retrieved_chunks", MVal.nat 0)]⟩ :=
  ⟨rfl, rfl,
    answer_question_no_context_short_circuit _ _ "q" none none _ rfl rfl⟩

/-- Counterexample to claim C2 as stated: with a retriever whose call
raises, the façade's blanket `except` returns 500 whose detail is
`ERROR_MESSAGES["generation_failed"]`, which is not the retrieval-failure
message the claim names. -/
theorem chat_retrieval_error_message_counterexample :
    chatEndpoint true (failingRetrieve "Connection refused") (stubGen (.ok ⟨"fine", []⟩))
        "What plans are available?" [] none
      = .err 500 (ERROR_MESSAGES "generation_failed")
    ∧ ERROR_MESSAGES "generation_failed" ≠ ERROR_MESSAGES "retrieval_failed" := by
  refine ⟨by decide, by decide⟩

/-- Claim C2, amended.  When the retriever call raises, the façade returns
HTTP 500 whose detail is the fixed generation-failure message — the single
catch-all message `ERROR_MESSAGES["generation_failed"]` used for every
pipeline failure — independent of the exception text `e`, so the raw
exception text is never returned to the caller. -/
theorem chat_retrieval_error_returns_fixed_generation_message
    (retrieve : String → Option Nat → Except String RetrievalResult)
    (gen : String → String → Option (List ChatMsg) → Except String GenerationResult)
    (question : String) (hist : List ChatMsg) (top_k : Option Nat) (e : String)
    (hq : pyStrip question ≠ "")
    (hr : retrieve (pyStrip question) top_k = .error e) :
    chatEndpoint true retrieve gen question hist top_k
      = .err 500 (ERROR_MESSAGES "generation_failed") := by
  simp [chatEndpoint, answer_question, hq, hr]

/-- Witness for `chat_retrieval_error_returns_fixed_generation_message`. -/
theorem chat_retrieval_error_returns_fixed_generation_message_witness :
    pyStrip "why" ≠ ""
    ∧ failingRetrieve "boom" (pyStrip "why") none = .error "boom"
    ∧ chatEndpoint true (failingRetrieve "boom") (stubGen (.ok ⟨"fine", []⟩)) "why" [] none
        = .err 500 (ERROR_MESSAGES "generation_failed") :=
  ⟨by decide, rfl,
    chat_retrieval_error_returns_fixed_generation_message _ _ "why" [] none "boom"
      (by decide) rfl⟩

/-- Claim C3.  A question that is empty after trimming (the empty string or
whitespace only) makes the `chat` handler return HTTP 400 with the fixed
detail, for every retriever and generator — the pipeline is never
invoked. -/
theorem chat_empty_question_returns_400
    (retrieve : String → Option Nat → Except String RetrievalResult)
    (gen : String → String → Option (List ChatMsg) → Except String GenerationResult)
    (question : String) (hist : List ChatMsg) (top_k : Option Nat)
    (hq : pyStrip question = "") :
    chatEndpoint true retrieve gen question hist top_k
      = .err 400 "Question cannot be empty" := by
  simp [chatEndpoint, hq]

/-- Witness for `chat_empty_question_returns_400` at the empty question. -/
theorem chat_empty_question_returns_400_witness :
    pyStrip "" = ""
    ∧ chatEndpoint true (failingRetrieve "never") (stubGen (.error "never")) "" [] none
        = .err 400 "Question cannot be empty" :=
  ⟨rfl,
    chat_empty_question_returns_400 _ _ "" [] none rfl⟩

/-! ## Sliding-window closed form (claim C4) -/

/-- Ceiling-division recurrence: removing one step of size `s` from a
positive remainder `x` lowers `⌈x / s⌉` by one. -/
lemma ceilDiv_step (x s : Nat) (hs : 1 ≤ s) (hx : 1 ≤ x) :
    (x + s - 1) / s = (x - s + s - 1) / s + 1 := by
  rcases le_or_lt s x with hsx | hsx
  · have e1 : x + s - 1 = (x - 1) + s := by omega
    have e2 : x - s + s - 1 = x - 1 := by omega
    rw [e1, e2, Nat.add_div_right _ (by omega)]
  · have e0 : x - s = 0 := by omega
    have e1 : x + s - 1 = (x - 1) + s := by omega
    have r2 : (x - 1) / s = 0 := Nat.div_eq_of_lt (by omega)
    rw [e0, e1, Nat.add_div_right _ (by omega), r2]
    rw [Nat.div_eq_of_lt (by omega)]

/-- Every window before the final one lies fully inside the word list. -/
lemma window_start_bound (w cs ov k : Nat) (hov : ov < cs) (hw : cs < w)
    (hk : k < (w - cs + (cs - ov) - 1) / (cs - ov)) :
    k * (cs - ov) + cs ≤ w := by
  have hs : 1 ≤ cs - ov := by omega
  have hx : 1 ≤ w - cs := by omega
  have hK : (w - cs + (cs - ov) - 1) / (cs - ov)
      = (w - cs - 1) / (cs - ov) + 1 := by
    have e : w - cs + (cs - ov) - 1 = (w - cs - 1) + (cs - ov) := by omega
    rw [e, Nat.add_div_right _ (by omega)]
  rw [hK] at hk
  have hk' : k ≤ (w - cs - 1) / (cs - ov) := by omega
  have h1 : k * (cs - ov) ≤ (w - cs - 1) / (cs - ov) * (cs - ov) :=
    Nat.mul_le_mul_right _ hk'
  have h2 : (w - cs - 1) / (cs - ov) * (cs - ov) ≤ w - cs - 1 :=
    Nat.div_mul_le_self _ _
  omega

/-- Closed form of the sliding loop in the well-configured case
`overlap < chunk_size`: starting at `start < len(words)` with enough fuel,
the loop returns the accumulated chunks followed by the windows at
`start, start + step, …` (one per remaining ceiling-division step), each
kept when at least `min_size` words long, joined with single spaces. -/
lemma chunkLoop_good (words : List String) (cs ov ms : Nat)
    (hov : ov < cs) (hms : ms ≤ cs) :
    ∀ (fuel start : Nat) (acc : List String),
      start < words.length →
      words.length ≤ start + fuel * (cs - ov) →
      chunkLoop words cs ov ms fuel start acc
        = some (acc ++
            ((((List.range
                  ((words.length - start - cs + (cs - ov) - 1) / (cs - ov) + 1)).map
                (fun k => windowAt words cs (start + k * (cs - ov)))).filter
              (fun win => ms ≤ win.length)).map joinWords)) := by
  intro fuel
  induction fuel with
  | zero =>
    intro start acc h1 h2
    simp only [Nat.zero_mul, Nat.add_zero] at h2
    omega
  | succ n ih =>
    intro start acc h1 h2
    have hs : 1 ≤ cs - ov := by omega
    by_cases hlast : words.length ≤ start + cs
    · have hK : (words.length - start - cs + (cs - ov) - 1) / (cs - ov) = 0 := by
        have hx0 : words.length - start - cs = 0 := by omega
        rw [hx0]
        exact Nat.div_eq_of_lt (by omega)
      rw [hK]
      simp only [chunkLoop, if_pos h1, if_pos hlast]
      by_cases hm : ms ≤ (windowAt words cs start).length
      · simp [hm, List.range_succ]
      · simp only [if_neg hm]
        simp [hm, List.range_succ]
    · push_neg at hlast
      have hfull : (windowAt words cs start).length = cs :=
        windowAt_length_full words cs start (by omega)
      have hkeep : ms ≤ (windowAt words cs start).length := by omega
      have hstep : start + (cs - ov) < words.length := by omega
      have hfuel : words.length ≤ start + (cs - ov) + n * (cs - ov) := by
        rw [Nat.succ_mul] at h2
        omega
      simp only [chunkLoop, if_pos h1,
        if_neg (by omega : ¬ words.length ≤ start + cs), if_pos hkeep]
      rw [ih (start + (cs - ov)) (acc ++ [joinWords (windowAt words cs start)])
        hstep hfuel]
      congr 1
      rw [List.append_assoc]
      congr 1
      have hKrec : (words.length - start - cs + (cs - ov) - 1) / (cs - ov) + 1
          = ((words.length - (start + (cs - ov)) - cs + (cs - ov) - 1) / (cs - ov) + 1)
              + 1 := by
        have hx : 1 ≤ words.length - start - cs := by omega
        have e : words.length - (start + (cs - ov)) - cs
            = words.length - start - cs - (cs - ov) := by omega
        rw [e, ceilDiv_step _ _ hs hx]
      have hfun : ((fun k => windowAt words cs (start + k * (cs - ov))) ∘ Nat.succ)
          = (fun k => windowAt words cs (start + (cs - ov) + k * (cs - ov))) := by
        funext k
        simp only [Function.comp]
        congr 1
        rw [Nat.succ_mul]
        omega
      conv_rhs =>
        rw [hKrec, List.range_succ_eq_map, List.map_cons, List.map_map,
          Nat.zero_mul, Nat.add_zero, hfun, List.filter_cons]
      rw [if_pos (decide_eq_true hkeep)]
      simp

/-- Claim C4.  For a text of word count `w > chunk_size`, with
`overlap < chunk_size` and `min_size ≤ chunk_size`, `chunk_text` returns
exactly the windows taken at starts `0, step, 2·step, …` (`step =
chunk_size - overlap`) that are at least `min_size` words long, each
re-joined with spaces.  The number of returned chunks is
`⌈(w - overlap) / step⌉` minus one when the final window has fewer than
`min_size` words; every window has at most `chunk_size` words; and each
pair of consecutive windows other than the last pair shares exactly
`overlap` words (the suffix of length `overlap` of one equals the prefix
of length `overlap` of the next). -/
theorem chunk_text_sliding_window_properties
    (text : String) (cs ov ms : Nat)
    (hov : ov < cs) (hms : ms ≤ cs) (hw : cs < (pyWords text).length) :
    ∀ s K wins,
      s = cs - ov →
      K = ((pyWords text).length - cs + s - 1) / s →
      wins = (List.range (K + 1)).map (fun k => windowAt (pyWords text) cs (k * s)) →
      chunk_textP text cs ov ms
          = some ((wins.filter (fun win => ms ≤ win.length)).map joinWords)
        ∧ (wins.filter (fun win => ms ≤ win.length)).length
            = ((pyWords text).length - ov + s - 1) / s
              - (if (windowAt (pyWords text) cs (K * s)).length < ms then 1 else 0)
        ∧ (∀ win ∈ wins, win.length ≤ cs)
        ∧ (∀ k, k + 1 < K →
            (windowAt (pyWords text) cs (k * s)).drop s
                = (windowAt (pyWords text) cs ((k + 1) * s)).take ov
              ∧ ((windowAt (pyWords text) cs (k * s)).drop s).length = ov) := by
  intro s K wins hseq hKeq hwinseq
  subst hseq hKeq hwinseq
  have hs : 1 ≤ cs - ov := by omega
  refine ⟨?_, ?_, ?_, ?_⟩
  · -- the loop computes exactly the kept windows
    have hne : ¬ (text = "" ∨ text.toList.all Char.isWhitespace) := by
      intro h
      rw [pyWords_eq_nil_of_blank text h] at hw
      simp at hw
    unfold chunk_textP
    rw [if_neg hne, if_neg (by omega)]
    rw [chunkLoop_good (pyWords text) cs ov ms hov hms ((pyWords text).length + 1) 0 []
      (by omega)
      (by
        have := Nat.le_mul_of_pos_right ((pyWords text).length + 1)
          (show 0 < cs - ov by omega)
        omega)]
    have hfun : (fun k => windowAt (pyWords text) cs (0 + k * (cs - ov)))
        = (fun k => windowAt (pyWords text) cs (k * (cs - ov))) := by
      funext k
      rw [Nat.zero_add]
    rw [List.nil_append, Nat.sub_zero, hfun]
  · -- chunk count
    have hceil : ((pyWords text).length - ov + (cs - ov) - 1) / (cs - ov)
        = ((pyWords text).length - cs + (cs - ov) - 1) / (cs - ov) + 1 := by
      have e : (pyWords text).length - ov + (cs - ov) - 1
          = ((pyWords text).length - cs + (cs - ov) - 1) + (cs - ov) := by omega
      rw [e, Nat.add_div_right _ (by omega)]
    rw [hceil, List.range_succ, List.map_append, List.filter_append]
    have hkeepAll :
        ((List.range (((pyWords text).length - cs + (cs - ov) - 1) / (cs - ov))).map
            (fun k => windowAt (pyWords text) cs (k * (cs - ov)))).filter
          (fun win => ms ≤ win.length)
        = (List.range (((pyWords text).length - cs + (cs - ov) - 1) / (cs - ov))).map
            (fun k => windowAt (pyWords text) cs (k * (cs - ov))) := by
      apply List.filter_eq_self.mpr
      intro win hwin
      obtain ⟨k, hk, rfl⟩ := List.mem_map.mp hwin
      rw [List.mem_range] at hk
      have hfullk : (windowAt (pyWords text) cs (k * (cs - ov))).length = cs :=
        windowAt_length_full _ _ _ (window_start_bound _ cs ov k hov hw hk)
      exact decide_eq_true (by omega)
    rw [hkeepAll]
    simp only [List.map_cons, List.map_nil, List.filter_cons, List.filter_nil,
      List.length_append, List.length_map, List.length_range]
    by_cases hm : ms ≤ (windowAt (pyWords text) cs
        (((pyWords text).length - cs + (cs - ov) - 1) / (cs - ov) * (cs - ov))).length
    · rw [if_pos (decide_eq_true hm), if_neg (by omega)]
      simp
    · rw [if_neg (by simpa using hm), if_pos (by omega)]
      simp
  · -- window size bound
    intro win hwin
    obtain ⟨k, _, rfl⟩ := List.mem_map.mp hwin
    rw [windowAt_length]
    omega
  · -- exact overlap of consecutive non-final windows
    intro k hk
    have hfullk : (windowAt (pyWords text) cs (k * (cs - ov))).length = cs :=
      windowAt_length_full _ _ _ (window_start_bound _ cs ov k hov hw (by omega))
    constructor
    · show (((pyWords text).drop (k * (cs - ov))).take cs).drop (cs - ov)
          = (((pyWords text).drop ((k + 1) * (cs - ov))).take cs).take ov
      rw [List.drop_take, List.drop_drop, List.take_take]
      have e1 : cs - (cs - ov) = ov := by omega
      have e2 : k * (cs - ov) + (cs - ov) = (k + 1) * (cs - ov) := by
        rw [Nat.succ_mul]
      have e3 : min ov cs = ov := Nat.min_eq_left (by omega)
      rw [e1, e3, e2]
    · rw [List.length_drop, hfullk]
      omega

/-- Witness for `chunk_text_sliding_window_properties` on the five-word
text with window 2, overlap 1, minimum 1: four windows, all kept. -/
theorem chunk_text_sliding_window_properties_witness :
    1 < 2 ∧ 1 ≤ 2 ∧ 2 < (pyWords "a b c d e").length ∧
    chunk_textP "a b c d e" 2 1 1
      = some (((((List.range (((pyWords "a b c d e").length - 2 + (2 - 1) - 1) / (2 - 1)
            + 1)).map
          (fun k => windowAt (pyWords "a b c d e") 2 (k * (2 - 1))))).filter
        (fun win => 1 ≤ win.length)).map joinWords) :=
  ⟨by decide, by decide, by decide,
    (chunk_text_sliding_window_properties "a b c d e" 2 1 1
      (by decide) (by decide) (by decide) (2 - 1)
      (((pyWords "a b c d e").length - 2 + (2 - 1) - 1) / (2 - 1)) _
      rfl rfl rfl).1⟩

end Alinta
